import Mathlib

/-!
Verification of the feature-extraction core of mind-ar-js:
`src/image-target/tracker/extract.js` (the `extract` dispatcher and its
corner / color / line detectors) and
`src/image-target/utils/isInFrameArea.js` (the frame-border predicate).

Modelling conventions.
* JavaScript numbers are modelled as exact rationals; where the source takes
  a square root or a trigonometric function the value moves to `ℝ`
  (`Real.sqrt`, `Real.cos`, ...).  `Math.floor` is `Int.floor`, `Math.round`
  is Mathlib's `round` (both are `⌊x + 1/2⌋`, including for negative halves).
* The grayscale buffer is a `List ℚ`; a read at an out-of-range flat index
  (JavaScript: `undefined`, which poisons arithmetic with NaN) is modelled as
  the junk value 0.  No theorem below depends on the value of such a read.
* The per-pixel scratch arrays that the source indexes as `arr[y*width+x]`
  with `0 ≤ x < width` are modelled as coordinate-indexed functions; the flat
  index arithmetic is kept verbatim in the buffer reads (`readPix`,
  `cumsumQuery`, the cross-correlation loop) where it can go out of range.
* The `while` loop of `_selectFeature` is modelled with explicit fuel
  `width*height + 2`: every iteration of the source loop either terminates the
  loop or turns a cell of `image2` that is `< maxSimThresh` into `1.0`, so the
  source loop performs at most `width*height + 1` iterations and the fuel is
  never exhausted.
-/

namespace MindAR

/-- An input image: grayscale sample buffer (row-major), width, height and a
caller-defined scale factor that the core passes through unused. -/
structure Image where
  data : List ℚ
  width : ℕ
  height : ℕ
  scale : ℚ := 1

/-- A frame border: four fractions of the image height (top/bottom) or
width (left/right). -/
structure FrameBorder where
  top : ℚ
  right : ℚ
  bottom : ℚ
  left : ℚ

/-- `isInFrameArea` from `src/image-target/utils/isInFrameArea.js`. -/
def isInFrameArea (x y : ℤ) (width height : ℕ) (frameBorder : FrameBorder) : Bool :=
  if frameBorder.top = 0 ∧ frameBorder.right = 0 ∧
      frameBorder.bottom = 0 ∧ frameBorder.left = 0 then true
  else
    let topPixels : ℤ := ⌊(height : ℚ) * frameBorder.top⌋
    let bottomPixels : ℤ := (height : ℤ) - ⌊(height : ℚ) * frameBorder.bottom⌋
    let leftPixels : ℤ := ⌊(width : ℚ) * frameBorder.left⌋
    let rightPixels : ℤ := (width : ℤ) - ⌊(width : ℚ) * frameBorder.right⌋
    decide (x < leftPixels ∨ x > rightPixels ∨ y < topPixels ∨ y > bottomPixels)

/-- C2: `isInFrameArea` is true everywhere when all four fractions are 0;
otherwise it holds exactly on the border band given by the four strict
inequalities against the floored pixel cut-offs. -/
theorem isInFrameArea_spec (x y : ℤ) (width height : ℕ) (b : FrameBorder) :
    isInFrameArea x y width height b = true ↔
      ((b.top = 0 ∧ b.right = 0 ∧ b.bottom = 0 ∧ b.left = 0) ∨
        x < ⌊(width : ℚ) * b.left⌋ ∨
        x > (width : ℤ) - ⌊(width : ℚ) * b.right⌋ ∨
        y < ⌊(height : ℚ) * b.top⌋ ∨
        y > (height : ℤ) - ⌊(height : ℚ) * b.bottom⌋) := by
  unfold isInFrameArea
  split
  · simp_all
  · simp_all

/-- Read the flat image buffer at an arbitrary integer index; out-of-range
reads yield the junk value 0 (JavaScript: `undefined`/NaN). -/
def readPix (d : List ℚ) (idx : ℤ) : ℚ :=
  if h : 0 ≤ idx ∧ idx.toNat < d.length then d.get ⟨idx.toNat, h.2⟩ else 0

/-- Modelled from the spec: the repository's `Cumsum` prefix-sum table
(`src/image-target/utils/cumsum.js`, which is not among the staged source
files).  Its contract (spec §3/§4.1): `query(x1,y1,x2,y2)` returns the exact
sum of the source array over the inclusive rectangle, and every caller keeps
the rectangle inside the image.  We model the query directly as that
rectangle sum over the flat buffer. -/
def cumsumQuery (d : List ℚ) (width : ℕ) (x1 y1 x2 y2 : ℤ) : ℚ :=
  ∑ j ∈ Finset.Icc y1 y2, ∑ i ∈ Finset.Icc x1 x2, readPix d (j * width + i)

/-- The squared buffer (`imageDataSqr[i] = imageData[i] * imageData[i]`). -/
def imageDataSqr (d : List ℚ) : List ℚ := d.map fun v => v * v

-- Fixed parameters of the corner detector (extract.js, top of file).
def SEARCH_SIZE1 : ℤ := 10
def SEARCH_SIZE2 : ℕ := 2
def TEMPLATE_SIZE : ℤ := 6
def TEMPLATE_SD_THRESH : ℚ := 5
def MAX_SIM_THRESH : ℝ := 0.95
def MAX_THRESH : ℝ := 0.9
def MIN_THRESH : ℝ := 0.2
def SD_THRESH : ℝ := 8
def OCCUPANCY_SIZE : ℚ := 24 * 2 / 3

/-- `_templateVar`: the standard-deviation length of the template window
centred at `(cx, cy)`, or `none` when the window leaves the image or the
variance falls below `sdThresh²`. -/
noncomputable def templateVar (img : Image) (cx cy : ℤ) (sdThresh : ℚ) : Option ℝ :=
  if cx - TEMPLATE_SIZE < 0 ∨ cx + TEMPLATE_SIZE ≥ (img.width : ℤ) then none
  else if cy - TEMPLATE_SIZE < 0 ∨ cy + TEMPLATE_SIZE ≥ (img.height : ℤ) then none
  else
    let templateWidth : ℤ := 2 * TEMPLATE_SIZE + 1
    let nPixels : ℚ := (templateWidth : ℚ) * (templateWidth : ℚ)
    let s1 := cumsumQuery img.data img.width
      (cx - TEMPLATE_SIZE) (cy - TEMPLATE_SIZE) (cx + TEMPLATE_SIZE) (cy + TEMPLATE_SIZE)
    let average := s1 / nPixels
    let s2 := cumsumQuery (imageDataSqr img.data) img.width
      (cx - TEMPLATE_SIZE) (cy - TEMPLATE_SIZE) (cx + TEMPLATE_SIZE) (cy + TEMPLATE_SIZE)
    let vlen := s2 - 2 * average * s1 + nPixels * average * average
    if vlen / nPixels < sdThresh * sdThresh then none
    else some (Real.sqrt (vlen : ℝ))

/-- The window-bounds test shared by `_templateVar` and `_getSimilarity`:
the template window centred at `(cx, cy)` lies fully inside the image. -/
def windowInBounds (img : Image) (cx cy : ℤ) : Prop :=
  0 ≤ cx - TEMPLATE_SIZE ∧ cx + TEMPLATE_SIZE < (img.width : ℤ) ∧
    0 ≤ cy - TEMPLATE_SIZE ∧ cy + TEMPLATE_SIZE < (img.height : ℤ)

instance (img : Image) (cx cy : ℤ) : Decidable (windowInBounds img cx cy) := by
  unfold windowInBounds; infer_instance

/-- The (unnormalised) variance of the template window centred at `(cx, cy)`:
sum of squares minus square of sum over the pixel count.  Both the
`_templateVar` expression and the `vlen2` expression of `_getSimilarity`
compute this quantity; "the window's computed standard deviation is zero"
means this value is zero. -/
def windowVarRaw (img : Image) (cx cy : ℤ) : ℚ :=
  let templateWidth : ℤ := 2 * TEMPLATE_SIZE + 1
  let sx := cumsumQuery img.data img.width
    (cx - TEMPLATE_SIZE) (cy - TEMPLATE_SIZE) (cx + TEMPLATE_SIZE) (cy + TEMPLATE_SIZE)
  let sxx := cumsumQuery (imageDataSqr img.data) img.width
    (cx - TEMPLATE_SIZE) (cy - TEMPLATE_SIZE) (cx + TEMPLATE_SIZE) (cy + TEMPLATE_SIZE)
  sxx - sx * sx / ((templateWidth : ℚ) * (templateWidth : ℚ))

/-- The covariance numerator of `_getSimilarity`: the cross term (computed by
the source's moving-pointer loop, written here as the direct double sum over
identical flat indices) minus the template average times the candidate sum. -/
def simCovariance (img : Image) (cx cy tx ty : ℤ) : ℚ :=
  let templateWidth : ℤ := 2 * TEMPLATE_SIZE + 1
  let w : ℤ := img.width
  let p1 : ℤ := (cy - TEMPLATE_SIZE) * w + (cx - TEMPLATE_SIZE)
  let p2 : ℤ := (ty - TEMPLATE_SIZE) * w + (tx - TEMPLATE_SIZE)
  let sxy := ∑ j ∈ Finset.range templateWidth.toNat, ∑ i ∈ Finset.range templateWidth.toNat,
    readPix img.data (p1 + j * w + i) * readPix img.data (p2 + j * w + i)
  let sx := cumsumQuery img.data img.width
    (cx - TEMPLATE_SIZE) (cy - TEMPLATE_SIZE) (cx + TEMPLATE_SIZE) (cy + TEMPLATE_SIZE)
  let templateAverage := cumsumQuery img.data img.width
    (tx - TEMPLATE_SIZE) (ty - TEMPLATE_SIZE) (tx + TEMPLATE_SIZE) (ty + TEMPLATE_SIZE) /
    ((templateWidth : ℚ) * (templateWidth : ℚ))
  sxy - templateAverage * sx

/-- `_getSimilarity`: normalised cross-correlation between the candidate
window at `(cx, cy)` and the template window at `(tx, ty)` whose
standard-deviation length `vlen` the caller precomputed.  Faithful to the
source: only the candidate window is bounds-checked and only the candidate
variance (`vlen2`) is tested against zero before dividing. -/
noncomputable def getSimilarity (img : Image) (cx cy : ℤ) (vlen : ℝ) (tx ty : ℤ) :
    Option ℝ :=
  if cx - TEMPLATE_SIZE < 0 ∨ cx + TEMPLATE_SIZE ≥ (img.width : ℤ) then none
  else if cy - TEMPLATE_SIZE < 0 ∨ cy + TEMPLATE_SIZE ≥ (img.height : ℤ) then none
  else
    let vlen2 := windowVarRaw img cx cy
    if vlen2 = 0 then none
    else some ((simCovariance img cx cy tx ty : ℝ) / (vlen * Real.sqrt (vlen2 : ℝ)))

/-- A detected feature.  The source tags each feature record with a `type`
string equal to the mode that produced it; here the constructor carries the
tag, and the per-mode metadata fields are exactly the source's. -/
inductive Feature where
  | corner (x y : ℤ)
  | color (x y : ℤ) (intensity : ℚ) (regionSize : ℕ)
  | line (x y : ℤ) (theta rho : ℝ) (votes : ℕ)

def Feature.x : Feature → ℤ
  | .corner x _ => x
  | .color x _ _ _ => x
  | .line x _ _ _ _ => x

def Feature.y : Feature → ℤ
  | .corner _ y => y
  | .color _ y _ _ => y
  | .line _ y _ _ _ => y

def Feature.isCorner : Feature → Prop
  | .corner _ _ => True
  | _ => False

/-- Row-major pixel traversal: `y` (outer) then `x` (inner), as in the color
and line detectors' loops. -/
def pixelList (height width : ℕ) : List (ℕ × ℕ) :=
  (List.range height).flatMap fun y => (List.range width).map fun x => (y, x)

/-- Color-mode parameters (merged; all fields present). -/
structure ColorOptions where
  numClusters : ℕ
  minRegionSize : ℕ
  colorThreshold : ℚ

/-- Line-mode parameters (merged; all fields present).  `minLineLength` and
`maxLineGap` are accepted but unused by the algorithm. -/
structure LinesOptions where
  edgeThreshold : ℚ
  houghThreshold : ℚ
  minLineLength : ℚ
  maxLineGap : ℚ

/-- Cluster centres, evenly spaced: `(i + 0.5) * (255 / numClusters)`. -/
def clusterCenter (numClusters i : ℕ) : ℚ :=
  ((i : ℚ) + 0.5) * (255 / (numClusters : ℚ))

/-- The "find nearest cluster" loop of `_extractColorFeatures`: returns the
minimal absolute distance (`none` standing for the initial `Infinity` when
there are no clusters) and the index attaining it. -/
def nearestCluster (numClusters : ℕ) (intensity : ℚ) : Option ℚ × ℕ :=
  (List.range numClusters).foldl
    (fun st i =>
      let dist := |intensity - clusterCenter numClusters i|
      match st.1 with
      | none => (some dist, i)
      | some m => if dist < m then (some dist, i) else st)
    (none, 0)

/-- The pixel-assignment pass of `_extractColorFeatures`: each cluster's list
of assigned pixel coordinates `(x, y)`, in scan order.  A pixel is assigned
to its nearest centre only when the distance is strictly below
`colorThreshold` (`Infinity < colorThreshold` is false, so with no clusters
nothing is assigned). -/
def colorAssignStep (img : Image) (frame : FrameBorder) (o : ColorOptions)
    (cls : List (List (ℕ × ℕ))) (yx : ℕ × ℕ) : List (List (ℕ × ℕ)) :=
  let y := yx.1
  let x := yx.2
  if ¬ isInFrameArea x y img.width img.height frame then cls
  else
    let intensity := readPix img.data ((y : ℤ) * img.width + x)
    let nc := nearestCluster o.numClusters intensity
    match nc.1 with
    | none => cls
    | some minDist =>
      if minDist < o.colorThreshold then
        cls.set nc.2 (cls.getD nc.2 [] ++ [(x, y)])
      else cls

def colorClusters (img : Image) (frame : FrameBorder) (o : ColorOptions) :
    List (List (ℕ × ℕ)) :=
  (pixelList img.height img.width).foldl (colorAssignStep img frame o)
    (List.replicate o.numClusters [])

/-- `_extractColorFeatures`: one feature per cluster whose pixel count
reaches `minRegionSize`, at the rounded centroid, carrying the cluster's
fixed centre intensity and its pixel count.  (When a cluster is empty and
`minRegionSize = 0`, the source divides 0 by 0 and pushes a feature with NaN
coordinates; the model's rational division yields 0 there — the feature is
pushed either way.) -/
def extractColorFeatures (img : Image) (frame : FrameBorder) (o : ColorOptions) :
    List Feature :=
  let clusters := colorClusters img frame o
  (List.range o.numClusters).filterMap fun i =>
    let pixels := clusters.getD i []
    if pixels.length < o.minRegionSize then none
    else
      let sumX : ℚ := (pixels.map fun p => (p.1 : ℚ)).sum
      let sumY : ℚ := (pixels.map fun p => (p.2 : ℚ)).sum
      some (.color (round (sumX / (pixels.length : ℚ))) (round (sumY / (pixels.length : ℚ)))
        (clusterCenter o.numClusters i) pixels.length)

/-- The Sobel edge map of `_extractLineFeatures` step 1: 255 where the
gradient magnitude strictly exceeds `edgeThreshold` at an interior, in-frame
pixel, 0 everywhere else (border and out-of-frame pixels keep the array's
zero initialisation). -/
noncomputable def sobelEdge (img : Image) (frame : FrameBorder) (eThr : ℚ) (x y : ℕ) : ℕ :=
  if ¬ (1 ≤ x ∧ x + 1 < img.width ∧ 1 ≤ y ∧ y + 1 < img.height) then 0
  else if ¬ isInFrameArea x y img.width img.height frame then 0
  else
    let w : ℤ := img.width
    let pos : ℤ := (y : ℤ) * w + x
    let d := img.data
    let gx : ℚ :=
      -readPix d (pos - w - 1) - 2 * readPix d (pos - 1) - readPix d (pos + w - 1) +
        readPix d (pos - w + 1) + 2 * readPix d (pos + 1) + readPix d (pos + w + 1)
    let gy : ℚ :=
      -readPix d (pos - w - 1) - 2 * readPix d (pos - w) - readPix d (pos - w + 1) +
        readPix d (pos + w - 1) + 2 * readPix d (pos + w) + readPix d (pos + w + 1)
    if Real.sqrt ((gx * gx + gy * gy : ℚ)) > (eThr : ℝ) then 255 else 0

/-- `maxRho = sqrt(width² + height²)`. -/
noncomputable def maxRho (width height : ℕ) : ℝ :=
  Real.sqrt ((width : ℝ) * width + (height : ℝ) * height)

/-- `rhoSteps = ceil(maxRho)`. -/
noncomputable def rhoSteps (width height : ℕ) : ℕ := ⌈maxRho width height⌉₊

/-- The Hough accumulator of `_extractLineFeatures` step 2: every edge pixel
votes in all 180 theta bins; the flat cell `thetaIdx * rhoSteps + rhoIdx` is
modelled as the pair `(thetaIdx, rhoIdx)` (the encoding is bijective because
the vote is recorded only when `0 ≤ rhoIdx < rhoSteps`). -/
noncomputable def houghAcc (img : Image) (frame : FrameBorder) (eThr : ℚ) :
    ℕ → ℕ → ℕ :=
  (pixelList img.height img.width).foldl
    (fun acc yx =>
      let y := yx.1
      let x := yx.2
      if sobelEdge img frame eThr x y = 0 then acc
      else
        (List.range 180).foldl
          (fun acc2 thetaIdx =>
            let theta : ℝ := (thetaIdx : ℝ) * Real.pi / 180
            let rho : ℝ := (x : ℝ) * Real.cos theta + (y : ℝ) * Real.sin theta
            let rhoIdx : ℤ := round (rho + maxRho img.width img.height / 2)
            if 0 ≤ rhoIdx ∧ rhoIdx < (rhoSteps img.width img.height : ℤ) then
              fun t r => if t = thetaIdx ∧ r = rhoIdx.toNat then acc2 t r + 1 else acc2 t r
            else acc2)
          acc)
    (fun _ _ => 0)

/-- The peak-extraction loop of `_extractLineFeatures` step 3: every
accumulator cell whose votes strictly exceed `houghThreshold` yields a
detected line `(theta, rho, votes)`, with no local-maximum suppression. -/
noncomputable def detectedLines (img : Image) (frame : FrameBorder) (o : LinesOptions) :
    List (ℝ × ℝ × ℕ) :=
  (((List.range 180).flatMap fun thetaIdx =>
      (List.range (rhoSteps img.width img.height)).map fun rhoIdx => (thetaIdx, rhoIdx))).filterMap
    fun tr =>
      let votes := houghAcc img frame o.edgeThreshold tr.1 tr.2
      if (votes : ℚ) > o.houghThreshold then
        some ((tr.1 : ℝ) * Real.pi / 180, (tr.2 : ℝ) - maxRho img.width img.height / 2, votes)
      else none

/-- The body of `_extractLineFeatures`' final loop: sample one point on a
detected line `(theta, rho, votes)` — fix `x0 = round(width/2)` and solve for
`y0` when `|sin theta| > 0.5`, else fix `y0 = round(height/2)` and solve for
`x0`; discard the line when the point leaves the image. -/
noncomputable def sampleLinePoint (img : Image) (l : ℝ × ℝ × ℕ) : Option Feature :=
  let theta := l.1
  let rho := l.2.1
  let votes := l.2.2
  let p : ℤ × ℤ :=
    if |Real.sin theta| > 0.5 then
      let x0 : ℤ := round ((img.width : ℝ) / 2)
      (x0, round ((rho - (x0 : ℝ) * Real.cos theta) / Real.sin theta))
    else
      let y0 : ℤ := round ((img.height : ℝ) / 2)
      (round ((rho - (y0 : ℝ) * Real.sin theta) / Real.cos theta), y0)
  if 0 ≤ p.1 ∧ p.1 < (img.width : ℤ) ∧ 0 ≤ p.2 ∧ p.2 < (img.height : ℤ) then
    some (.line p.1 p.2 theta rho votes)
  else none

/-- `_extractLineFeatures` step 4: one sampled Line feature per detected
line whose sample point stays inside the image. -/
noncomputable def extractLineFeatures (img : Image) (frame : FrameBorder)
    (o : LinesOptions) : List Feature :=
  (detectedLines img frame o).filterMap (sampleLinePoint img)

/-! ### Corner detector (`_extractCornerFeatures` / `_selectFeature`) -/

/-- Step 1.1 of `_extractCornerFeatures`: the gradient score map.  Pixels on
the image border are initialised to `-1`; interior pixels that are skipped by
the frame predicate keep the `Float32Array` zero initialisation; interior
in-frame pixels get `sqrt((dx² + dy²) / 2)`. -/
noncomputable def dValue (img : Image) (frame : FrameBorder) (i j : ℤ) : ℝ :=
  let w : ℤ := img.width
  let h : ℤ := img.height
  if i = 0 ∨ i = w - 1 ∨ j = 0 ∨ j = h - 1 then -1
  else if ¬ (1 ≤ i ∧ i ≤ w - 2 ∧ 1 ≤ j ∧ j ≤ h - 2) then 0
  else if ¬ isInFrameArea i j img.width img.height frame then 0
  else
    let pos : ℤ := j * w + i
    let dx : ℚ := (∑ k ∈ Finset.Icc (-1 : ℤ) 1,
      (readPix img.data (pos + w * k + 1) - readPix img.data (pos + w * k - 1))) / (3 * 256)
    let dy : ℚ := (∑ k ∈ Finset.Icc (-1 : ℤ) 1,
      (readPix img.data (pos + w + k) - readPix img.data (pos - w + k))) / (3 * 256)
    Real.sqrt (((dx * dx + dy * dy) / 2 : ℚ))

/-- Step 1.2: a pixel is a candidate when it is interior, in-frame and its
gradient score strictly exceeds those of its four neighbours (offsets
`-1, +1, -width, +width` on the flat array, i.e. left, right, up, down). -/
noncomputable def isCandidate (img : Image) (frame : FrameBorder) (i j : ℤ) : Prop :=
  1 ≤ i ∧ i ≤ (img.width : ℤ) - 2 ∧ 1 ≤ j ∧ j ≤ (img.height : ℤ) - 2 ∧
    isInFrameArea i j img.width img.height frame = true ∧
    dValue img frame (i - 1) j < dValue img frame i j ∧
    dValue img frame (i + 1) j < dValue img frame i j ∧
    dValue img frame i (j - 1) < dValue img frame i j ∧
    dValue img frame i (j + 1) < dValue img frame i j

open scoped Classical in
noncomputable instance (img : Image) (frame : FrameBorder) (i j : ℤ) :
    Decidable (isCandidate img frame i j) := inferInstanceAs (Decidable (_ ∧ _))

/-- The clamped histogram bin `min(max(floor(dValue*1000), 0), 999)`. -/
noncomputable def histBin (img : Image) (frame : FrameBorder) (i j : ℤ) : ℕ :=
  let k : ℤ := ⌊dValue img frame i j * 1000⌋
  if k > 999 then 999 else if k < 0 then 0 else k.toNat

/-- The histogram of candidate scores (`dValueHist`). -/
noncomputable def dValueHist (img : Image) (frame : FrameBorder) (k : ℕ) : ℕ :=
  (pixelList img.height img.width).countP fun yx =>
    decide (isCandidate img frame yx.2 yx.1) && decide (histBin img frame yx.2 yx.1 = k)

/-- The descending cut-off scan: starting at bin `k` with `acc` candidates
already counted, return the first bin at which the running total strictly
exceeds `maxPoints = 0.02 * width * height`, or `-1` when the scan passes
bin 0. -/
noncomputable def kThreshGo (img : Image) (frame : FrameBorder) (maxPoints : ℚ) :
    ℕ → ℕ → ℤ
  | 0, acc => if (acc + dValueHist img frame 0 : ℚ) > maxPoints then 0 else -1
  | k + 1, acc =>
    if (acc + dValueHist img frame (k + 1) : ℚ) > maxPoints then (k : ℤ) + 1
    else kThreshGo img frame maxPoints k (acc + dValueHist img frame (k + 1))

/-- The score cut-off bin `k` of step 1.2's top-fraction filter. -/
noncomputable def kThresh (img : Image) (frame : FrameBorder) : ℤ :=
  kThreshGo img frame ((0.02 : ℚ) * img.width * img.height) 999 0

/-- A pixel survives step 1 when it is a candidate and its score is not
strictly below the cut-off bin. -/
noncomputable def isPixelSelected (img : Image) (frame : FrameBorder) (i j : ℤ) : Prop :=
  isCandidate img frame i j ∧
    ¬ (dValue img frame i j * 1000 < (kThresh img frame : ℝ))

open scoped Classical in
noncomputable instance (img : Image) (frame : FrameBorder) (i j : ℤ) :
    Decidable (isPixelSelected img frame i j) := inferInstanceAs (Decidable (_ ∧ _))

/-- The ordered offset square `[-s, s] × [-s, s]`, outer row offset first
(the source's `jj`/`j` loops are outer, `ii`/`i` inner). -/
def offsetList (s : ℕ) : List (ℤ × ℤ) :=
  (List.range (2 * s + 1)).flatMap fun j =>
    (List.range (2 * s + 1)).map fun i => ((j : ℤ) - s, (i : ℤ) - s)

/-- Step 2's annulus search: the maximum similarity of the candidate at
`(i, j)` against every point of the `SEARCH_SIZE1` square outside the inner
`SEARCH_SIZE2` disk, with the source's early `break` once the maximum
exceeds `MAX_SIM_THRESH` modelled as a stop flag (the break fires exactly
when the flag condition first holds, so the returned maximum and all
downstream observations agree). -/
noncomputable def annulusMax (img : Image) (i j : ℤ) (vlen : ℝ) : ℝ :=
  ((offsetList 10).foldl
      (fun (st : ℝ × Bool) jjii =>
        if st.2 then st
        else
          let jj := jjii.1
          let ii := jjii.2
          if ii * ii + jj * jj ≤ (SEARCH_SIZE2 : ℤ) * SEARCH_SIZE2 then st
          else
            match getSimilarity img (i + ii) (j + jj) vlen i j with
            | none => st
            | some sim =>
              if sim > st.1 then (sim, decide (sim > MAX_SIM_THRESH)) else st)
      (-1, false)).1

/-- Step 2's self-similarity map (`featureMap`), indexed by pixel
coordinates `(x, y)`: `1.0` for unselected pixels and for selected pixels
whose template window is degenerate, else the annulus maximum. -/
noncomputable def featureMap (img : Image) (frame : FrameBorder) (q : ℤ × ℤ) : ℝ :=
  if ¬ isPixelSelected img frame q.1 q.2 then 1
  else
    match templateVar img q.1 q.2 TEMPLATE_SD_THRESH with
    | none => 1
    | some vlen => annulusMax img q.1 q.2 vlen

/-- State of `_selectFeature`'s greedy loop: the working similarity map
`image2` (coordinate-indexed), the accepted coordinates and their count. -/
structure SelState where
  image2 : ℤ × ℤ → ℝ
  coords : List (ℤ × ℤ)
  num : ℕ

/-- The full-map argmin scan at the top of each `_selectFeature` iteration:
scan row-major over in-frame pixels, keeping the first strictly smaller
`image2` value; returns `(minSim, cx, cy)` with `cx = cy = -1` when no value
beat the initial `minSim = maxSimThresh`. -/
noncomputable def scanMinStep (image2 : ℤ × ℤ → ℝ) (width height : ℕ)
    (frame : FrameBorder) (st : ℝ × ℤ × ℤ) (yx : ℕ × ℕ) : ℝ × ℤ × ℤ :=
  let j := yx.1
  let i := yx.2
  if ¬ isInFrameArea i j width height frame then st
  else if image2 (i, j) < st.1 then (image2 (i, j), (i : ℤ), (j : ℤ))
  else st

noncomputable def scanMin (image2 : ℤ × ℤ → ℝ) (width height : ℕ)
    (frame : FrameBorder) (init : ℝ) : ℝ × ℤ × ℤ :=
  (pixelList height width).foldl (scanMinStep image2 width height frame)
    (init, -1, -1)

/-- Mark a single cell of `image2` as exhausted (`image2[cy*width+cx] = 1.0`). -/
noncomputable def setOne (image2 : ℤ × ℤ → ℝ) (cx cy : ℤ) : ℤ × ℤ → ℝ :=
  fun q => if q = (cx, cy) then 1 else image2 q

/-- The occupancy wipe after an acceptance: every in-bounds cell within the
`[-occSize, occSize]` square of `(cx, cy)` becomes `1.0`. -/
noncomputable def wipe (image2 : ℤ × ℤ → ℝ) (width height : ℕ) (cx cy : ℤ)
    (occSize : ℕ) : ℤ × ℤ → ℝ :=
  fun q =>
    if |q.1 - cx| ≤ (occSize : ℤ) ∧ |q.2 - cy| ≤ (occSize : ℤ) ∧
        0 ≤ q.1 ∧ q.1 < (width : ℤ) ∧ 0 ≤ q.2 ∧ q.2 < (height : ℤ) then 1
    else image2 q

/-- The `searchSize` disk scan of an accepted candidate: minimum and maximum
similarity over the punctured disk, with the source's early `break`s modelled
as a stop flag (the breaks fire exactly when the post-loop reject condition
first becomes true, and min/max move monotonically, so the reject decision
is unchanged). -/
noncomputable def diskScan (img : Image) (vlen : ℝ) (cx cy : ℤ) (minSim : ℝ)
    (searchSize : ℕ) (minSimThresh : ℝ) : ℝ × ℝ :=
  let st := (offsetList searchSize).foldl
    (fun (st : ℝ × ℝ × Bool) ji =>
      if st.2.2 then st
      else
        let j := ji.1
        let i := ji.2
        if i * i + j * j > (searchSize : ℤ) * searchSize then st
        else if i = 0 ∧ j = 0 then st
        else
          match getSimilarity img (cx + i) (cy + j) vlen cx cy with
          | none => st
          | some sim =>
            let mn := if sim < st.1 then sim else st.1
            let mx := if sim > st.2.1 then sim else st.2.1
            (mn, mx, decide ((mn < minSimThresh ∧ mn < minSim) ∨ mx > 0.99)))
    (1, -1, false)
  (st.1, st.2.1)

/-- One-or-more iterations of `_selectFeature`'s `while (num < maxFeatureNum)`
loop, with fuel.  `mfn = none` models the JavaScript bound `Infinity`
(always continue), `mfn = some m` the finite bound `num < m` (`some 0` also
models the NaN bound, under which the comparison is always false). -/
noncomputable def selectLoopGo (img : Image) (frame : FrameBorder)
    (templateSize searchSize : ℕ) (maxSimThresh minSimThresh sdThresh : ℝ)
    (occSize : ℕ) (mfn : Option ℕ) : ℕ → SelState → List (ℤ × ℤ)
  | 0, st => st.coords
  | fuel + 1, st =>
    let goOn : Bool := match mfn with | none => true | some m => decide (st.num < m)
    if goOn = false then st.coords
    else
      let scan := scanMin st.image2 img.width img.height frame maxSimThresh
      let minSim := scan.1
      let cx := scan.2.1
      let cy := scan.2.2
      if cx = -1 then st.coords
      else
        match templateVar img cx cy 0 with
        | none =>
          selectLoopGo img frame templateSize searchSize maxSimThresh minSimThresh
            sdThresh occSize mfn fuel ⟨setOne st.image2 cx cy, st.coords, st.num⟩
        | some vlen =>
          if vlen / ((templateSize : ℝ) * 2 + 1) < sdThresh then
            selectLoopGo img frame templateSize searchSize maxSimThresh minSimThresh
              sdThresh occSize mfn fuel ⟨setOne st.image2 cx cy, st.coords, st.num⟩
          else
            let mm := diskScan img vlen cx cy minSim searchSize minSimThresh
            if (mm.1 < minSimThresh ∧ mm.1 < minSim) ∨ mm.2 > 0.99 then
              selectLoopGo img frame templateSize searchSize maxSimThresh minSimThresh
                sdThresh occSize mfn fuel ⟨setOne st.image2 cx cy, st.coords, st.num⟩
            else
              selectLoopGo img frame templateSize searchSize maxSimThresh minSimThresh
                sdThresh occSize mfn fuel
                ⟨wipe st.image2 img.width img.height cx cy occSize,
                  st.coords ++ [(cx, cy)], st.num + 1⟩

/-- `_selectFeature`: the occupancy radius is recomputed as
`floor(min(width, height) / 10)` (discarding the passed `occSize` argument),
the density cap `maxFeatureNum` is evaluated with JavaScript division
semantics (see `selectLoopGo`), and the greedy loop runs on a copy of the
feature map. -/
noncomputable def selectFeature (img : Image) (featMap : ℤ × ℤ → ℝ)
    (templateSize searchSize : ℕ) (occSizeArg : ℚ)
    (maxSimThresh minSimThresh sdThresh : ℝ) (frame : FrameBorder) :
    List (ℤ × ℤ) :=
  let occSize := min img.width img.height / 10
  let divSize := (templateSize * 2 + 1) * 3
  let xDiv := img.width / divSize
  let yDiv := img.height / divSize
  let mfn : Option ℕ :=
    if occSize = 0 then
      if 0 < img.width ∧ 0 < img.height then none else some 0
    else some (img.width / occSize * (img.height / occSize) + xDiv * yDiv)
  selectLoopGo img frame templateSize searchSize maxSimThresh minSimThresh sdThresh
    occSize mfn (img.width * img.height + 2) ⟨featMap, [], 0⟩

/-- `_extractCornerFeatures`: run the pipeline and return the selected
coordinates as Corner features. -/
noncomputable def extractCornerFeatures (img : Image) (frame : FrameBorder) :
    List Feature :=
  (selectFeature img (featureMap img frame) TEMPLATE_SIZE.toNat SEARCH_SIZE2
      OCCUPANCY_SIZE MAX_THRESH MIN_THRESH SD_THRESH frame).map
    fun c => .corner c.1 c.2

/-! ### Dispatcher (`extract`) and option merging -/

/-- The caller's `options.modes` value: either a single mode string or an
array of mode strings (`extract` normalises with `Array.isArray`). -/
inductive ModesArg where
  | one (s : String)
  | many (l : List String)

/-- A caller-supplied (possibly partial) `colorOptions` object. -/
structure PartialColorOptions where
  numClusters : Option ℕ := none
  minRegionSize : Option ℕ := none
  colorThreshold : Option ℚ := none

/-- A caller-supplied (possibly partial) `linesOptions` object. -/
structure PartialLinesOptions where
  edgeThreshold : Option ℚ := none
  houghThreshold : Option ℚ := none
  minLineLength : Option ℚ := none
  maxLineGap : Option ℚ := none

/-- A caller-supplied `detectionOptions` object; absent fields are `none`
(the spread with `DEFAULT_DETECTION_OPTIONS` fills them).  `cornerOptions`
is an empty record in the source, modelled as `Unit`. -/
structure DetectionOptionsArg where
  modes : Option ModesArg := none
  cornerOptions : Option Unit := none
  colorOptions : Option PartialColorOptions := none
  linesOptions : Option PartialLinesOptions := none

def DEFAULT_COLOR_OPTIONS : ColorOptions := ⟨5, 50, 30⟩

def DEFAULT_LINES_OPTIONS : LinesOptions := ⟨50, 50, 30, 10⟩

/-- `DEFAULT_DETECTION_OPTIONS` as a caller-style object (all fields
present, as in the source constant). -/
def DEFAULT_DETECTION_OPTIONS : DetectionOptionsArg :=
  { modes := some (.many ["corner"]),
    cornerOptions := some (),
    colorOptions := some ⟨some 5, some 50, some 30⟩,
    linesOptions := some ⟨some 50, some 50, some 30, some 10⟩ }

/-- `{...DEFAULT_DETECTION_OPTIONS.colorOptions, ...(detectionOptions.colorOptions || {})}`. -/
def mergeColor : Option PartialColorOptions → ColorOptions
  | none => DEFAULT_COLOR_OPTIONS
  | some p => ⟨p.numClusters.getD 5, p.minRegionSize.getD 50, p.colorThreshold.getD 30⟩

/-- `{...DEFAULT_DETECTION_OPTIONS.linesOptions, ...(detectionOptions.linesOptions || {})}`. -/
def mergeLines : Option PartialLinesOptions → LinesOptions
  | none => DEFAULT_LINES_OPTIONS
  | some p =>
    ⟨p.edgeThreshold.getD 50, p.houghThreshold.getD 50,
      p.minLineLength.getD 30, p.maxLineGap.getD 10⟩

/-- The merged and normalised mode list: an absent `modes` field falls back
to the default `['corner']`; a bare string becomes a one-element array. -/
def mergeModes : Option ModesArg → List String
  | none => ["corner"]
  | some (.one s) => [s]
  | some (.many l) => l

/-- `extract(image, frameDetection = {0,0,0,0}, detectionOptions = DEFAULT)`:
merge options with defaults, run each requested mode in order, concatenate.
An unknown mode string logs a warning and contributes nothing. -/
noncomputable def extract (img : Image)
    (frame : FrameBorder := ⟨0, 0, 0, 0⟩)
    (detectionOptions : DetectionOptionsArg := DEFAULT_DETECTION_OPTIONS) :
    List Feature :=
  let colorOpts := mergeColor detectionOptions.colorOptions
  let linesOpts := mergeLines detectionOptions.linesOptions
  let modes := mergeModes detectionOptions.modes
  modes.flatMap fun mode =>
    if mode = "corner" then extractCornerFeatures img frame
    else if mode = "color" then extractColorFeatures img frame colorOpts
    else if mode = "lines" then extractLineFeatures img frame linesOpts
    else []

/-- The spec's §7 input-validity condition: non-empty buffer, positive
dimensions, buffer length equal to `width * height`. -/
def validImage (img : Image) : Prop :=
  img.data ≠ [] ∧ 0 < img.width ∧ 0 < img.height ∧
    img.data.length = img.width * img.height

instance (img : Image) : Decidable (validImage img) := by
  unfold validImage; infer_instance

/-- The in-bounds property of an extracted feature: coordinates inside the
image, and for Corner features additionally the template-window margins. -/
def featureInBounds (w h : ℕ) : Feature → Prop
  | .corner x y =>
    (0 ≤ x ∧ x < (w : ℤ) ∧ 0 ≤ y ∧ y < (h : ℤ)) ∧
      (TEMPLATE_SIZE ≤ x ∧ x < (w : ℤ) - TEMPLATE_SIZE ∧
        TEMPLATE_SIZE ≤ y ∧ y < (h : ℤ) - TEMPLATE_SIZE)
  | .color x y _ _ => 0 ≤ x ∧ x < (w : ℤ) ∧ 0 ≤ y ∧ y < (h : ℤ)
  | .line x y _ _ _ => 0 ≤ x ∧ x < (w : ℤ) ∧ 0 ≤ y ∧ y < (h : ℤ)

/-! ### C4, C10: dispatcher equivalences -/

/-- C4: `extract(image)` with no further arguments returns exactly what
`extract(image, {top:0,right:0,bottom:0,left:0}, {modes:['corner']})`
returns. -/
theorem extract_default_eq_corner_only (img : Image) :
    extract img = extract img ⟨0, 0, 0, 0⟩ { modes := some (.many ["corner"]) } := rfl

/-- C10: a bare mode string for `options.modes` behaves exactly like the
one-element array containing it. -/
theorem extract_single_mode_eq_array (img : Image) (frame : FrameBorder)
    (s : String) (co : Option Unit) (po : Option PartialColorOptions)
    (lo : Option PartialLinesOptions) :
    extract img frame ⟨some (.one s), co, po, lo⟩ =
      extract img frame ⟨some (.many [s]), co, po, lo⟩ := rfl

/-! ### C1: no input validation in `extract` -/

/-- C1 counterexample: the 0×0 empty-buffer image is invalid per the spec's
§7 condition, yet `extract` — whose embedding is a total function into
feature lists because the source performs no validation at all — processes
it and returns the empty feature list rather than failing with any
`InvalidInput` condition. -/
theorem extract_invalid_input_cex :
    ¬ validImage ⟨[], 0, 0, 1⟩ ∧
      extract ⟨[], 0, 0, 1⟩ ⟨0, 0, 0, 0⟩ DEFAULT_DETECTION_OPTIONS = [] :=
  ⟨by decide, rfl⟩

/-- C1 amended: `extract` performs no input validation; with the default
options it processes the invalid 0×0 empty image like any other and returns
the empty feature list (for every frame border), signalling nothing. -/
theorem extract_invalid_input_total (frame : FrameBorder) :
    extract ⟨[], 0, 0, 1⟩ frame DEFAULT_DETECTION_OPTIONS = [] := rfl

/-! ### C6: colorThreshold = 0 -/

/-- An image whose buffer holds two different sample values. -/
def NonConstant (img : Image) : Prop :=
  ∃ a ∈ img.data, ∃ b ∈ img.data, a ≠ b

instance (img : Image) : Decidable (NonConstant img) := by
  unfold NonConstant; infer_instance

/-- The minimal distance returned by `nearestCluster` is never negative
(it is an absolute value whenever it is not the initial `Infinity`). -/
theorem nearestCluster_min_nonneg (n : ℕ) (intensity : ℚ) :
    ∀ m, (nearestCluster n intensity).1 = some m → 0 ≤ m := by
  have key : ∀ (l : List ℕ) (st : Option ℚ × ℕ),
      (∀ m, st.1 = some m → 0 ≤ m) →
      ∀ m,
        ((l.foldl
          (fun st i =>
            let dist := |intensity - clusterCenter n i|
            match st.1 with
            | none => (some dist, i)
            | some m => if dist < m then (some dist, i) else st)
          st).1 = some m) → 0 ≤ m := by
    intro l
    induction l with
    | nil => intro st hst m hm; exact hst m hm
    | cons a l ih =>
      intro st hst m hm
      rw [List.foldl_cons] at hm
      refine ih _ ?_ m hm
      obtain ⟨s1, i0⟩ := st
      cases s1 with
      | none =>
        intro m' hm'
        simp only at hm'
        obtain rfl := Option.some_injective _ hm'.symm
        exact abs_nonneg _
      | some m0 =>
        intro m' hm'
        simp only at hm'
        split at hm'
        · obtain rfl := Option.some_injective _ hm'.symm
          exact abs_nonneg _
        · exact hst m' hm'
  intro m hm
  unfold nearestCluster at hm
  refine key _ _ ?_ m hm
  intro m' hm'
  simp at hm'

/-- With a non-positive `colorThreshold` the assignment pass assigns no
pixel: every cluster stays empty. -/
theorem colorClusters_threshold_nonpos (img : Image) (frame : FrameBorder)
    (o : ColorOptions) (hthr : o.colorThreshold ≤ 0) :
    colorClusters img frame o = List.replicate o.numClusters [] := by
  unfold colorClusters
  generalize pixelList img.height img.width = l
  induction l with
  | nil => rfl
  | cons p l ih =>
    rw [List.foldl_cons]
    convert ih using 2
    unfold colorAssignStep
    simp only
    split
    · rfl
    · rcases hnc : (nearestCluster o.numClusters
          (readPix img.data ((p.1 : ℤ) * img.width + p.2))).1 with _ | minDist
      · simp [hnc]
      · simp only [hnc]
        have h0 : 0 ≤ minDist := nearestCluster_min_nonneg _ _ _ hnc
        have hne : ¬ minDist < o.colorThreshold := by
          intro hlt; exact absurd (lt_of_le_of_lt h0 hlt) (not_lt.2 hthr)
        simp [hne]

/-- C6 amended: with `colorThreshold = 0` on a non-constant image and every
cluster-size floor `minRegionSize ≥ 1`, color detection yields zero
ColorRegion features (no pixel is strictly within distance 0 of a centre, so
every cluster is empty and falls below the floor). -/
theorem colorThreshold_zero_no_features (img : Image) (frame : FrameBorder)
    (o : ColorOptions) (hnc : NonConstant img) (hthr : o.colorThreshold = 0)
    (hmin : 1 ≤ o.minRegionSize) :
    extractColorFeatures img frame o = [] := by
  unfold extractColorFeatures
  rw [colorClusters_threshold_nonpos img frame o (le_of_eq hthr)]
  rw [List.filterMap_eq_nil_iff]
  intro i hi
  simp only
  have hget : (List.replicate o.numClusters ([] : List (ℕ × ℕ))).getD i [] = [] := by
    rcases Nat.lt_or_ge i o.numClusters with h | h
    · simp [List.getD, h]
    · simp [List.getD, List.getElem?_eq_none, h]
  rw [hget]
  simp [Nat.lt_of_lt_of_le Nat.zero_lt_one hmin]

/-- C6 amended, witness: a concrete non-constant 2×1 image with
`colorThreshold = 0` and the default `minRegionSize = 50` yields no color
features. -/
theorem colorThreshold_zero_no_features_witness :
    NonConstant ⟨[0, 255], 2, 1, 1⟩ ∧
      (⟨5, 50, 0⟩ : ColorOptions).colorThreshold = 0 ∧
      1 ≤ (⟨5, 50, 0⟩ : ColorOptions).minRegionSize ∧
      extractColorFeatures ⟨[0, 255], 2, 1, 1⟩ ⟨0, 0, 0, 0⟩ ⟨5, 50, 0⟩ = [] :=
  ⟨by decide, rfl, by norm_num,
    colorThreshold_zero_no_features _ _ _ (by decide) rfl (by norm_num)⟩

/-- C6 counterexample: with `colorThreshold = 0` but `minRegionSize = 0`
(the claim lets the other color options be arbitrary), every cluster is
empty yet still passes the `pixels.length < minRegionSize` test, so the
detector emits one feature per cluster (the source computes its centroid as
0/0 = NaN): on the non-constant 2×1 image `[0, 255]` with one cluster the
result has length 1, not 0. -/
theorem colorThreshold_zero_cex :
    NonConstant ⟨[0, 255], 2, 1, 1⟩ ∧
      (extractColorFeatures ⟨[0, 255], 2, 1, 1⟩ ⟨0, 0, 0, 0⟩ ⟨1, 0, 0⟩).length = 1 := by
  constructor
  · decide
  · rfl

/-! ### C5: Hough peak extraction and sampling -/

/-- Characterisation of the per-line sampling step. -/
theorem sampleLinePoint_eq_some_iff (img : Image) (theta rho : ℝ) (v : ℕ)
    (f : Feature) :
    sampleLinePoint img (theta, rho, v) = some f ↔
      ∃ x0 y0 : ℤ,
        ((|Real.sin theta| > 0.5 ∧ x0 = round ((img.width : ℝ) / 2) ∧
            y0 = round ((rho - (x0 : ℝ) * Real.cos theta) / Real.sin theta)) ∨
          (¬ |Real.sin theta| > 0.5 ∧ y0 = round ((img.height : ℝ) / 2) ∧
            x0 = round ((rho - (y0 : ℝ) * Real.sin theta) / Real.cos theta))) ∧
        (0 ≤ x0 ∧ x0 < (img.width : ℤ) ∧ 0 ≤ y0 ∧ y0 < (img.height : ℤ)) ∧
        f = .line x0 y0 theta rho v := by
  unfold sampleLinePoint
  dsimp only
  by_cases hc : |Real.sin theta| > 0.5
  · rw [if_pos hc]
    simp only [Option.ite_none_right_eq_some, Option.some_inj]
    constructor
    · rintro ⟨hb, rfl⟩
      exact ⟨_, _, Or.inl ⟨hc, rfl, rfl⟩, hb, rfl⟩
    · rintro ⟨x0, y0, hcase, hb, rfl⟩
      rcases hcase with ⟨_, rfl, rfl⟩ | ⟨hnc, _, _⟩
      · exact ⟨hb, rfl⟩
      · exact absurd hc hnc
  · rw [if_neg hc]
    simp only [Option.ite_none_right_eq_some, Option.some_inj]
    constructor
    · rintro ⟨hb, rfl⟩
      exact ⟨_, _, Or.inr ⟨hc, rfl, rfl⟩, hb, rfl⟩
    · rintro ⟨x0, y0, hcase, hb, rfl⟩
      rcases hcase with ⟨hc', _, _⟩ | ⟨_, rfl, rfl⟩
      · exact absurd hc' hc
      · exact ⟨hb, rfl⟩

/-- C5: a Line feature is emitted exactly for the accumulator cells with
votes strictly above `houghThreshold` (no local-maximum suppression), with
`theta = thetaIdx·π/180`, `rho = rhoIdx - maxRho/2`, the sample point fixed
at `x0 = round(width/2)` (solving for `y0`) when `|sin theta| > 0.5` and at
`y0 = round(height/2)` (solving for `x0`) otherwise, and the line discarded
exactly when that point falls outside the image bounds. -/
theorem extractLineFeatures_mem_iff (img : Image) (frame : FrameBorder)
    (o : LinesOptions) (f : Feature) :
    f ∈ extractLineFeatures img frame o ↔
      ∃ thetaIdx rhoIdx : ℕ,
        thetaIdx < 180 ∧ rhoIdx < rhoSteps img.width img.height ∧
        ((houghAcc img frame o.edgeThreshold thetaIdx rhoIdx : ℚ) > o.houghThreshold) ∧
        ∃ x0 y0 : ℤ,
          ((|Real.sin ((thetaIdx : ℝ) * Real.pi / 180)| > 0.5 ∧
              x0 = round ((img.width : ℝ) / 2) ∧
              y0 = round ((((rhoIdx : ℝ) - maxRho img.width img.height / 2) -
                (x0 : ℝ) * Real.cos ((thetaIdx : ℝ) * Real.pi / 180)) /
                Real.sin ((thetaIdx : ℝ) * Real.pi / 180))) ∨
            (¬ |Real.sin ((thetaIdx : ℝ) * Real.pi / 180)| > 0.5 ∧
              y0 = round ((img.height : ℝ) / 2) ∧
              x0 = round ((((rhoIdx : ℝ) - maxRho img.width img.height / 2) -
                (y0 : ℝ) * Real.sin ((thetaIdx : ℝ) * Real.pi / 180)) /
                Real.cos ((thetaIdx : ℝ) * Real.pi / 180)))) ∧
          (0 ≤ x0 ∧ x0 < (img.width : ℤ) ∧ 0 ≤ y0 ∧ y0 < (img.height : ℤ)) ∧
          f = .line x0 y0 ((thetaIdx : ℝ) * Real.pi / 180)
            ((rhoIdx : ℝ) - maxRho img.width img.height / 2)
            (houghAcc img frame o.edgeThreshold thetaIdx rhoIdx) := by
  unfold extractLineFeatures detectedLines
  rw [List.mem_filterMap]
  constructor
  · rintro ⟨l, hl, hsome⟩
    rw [List.mem_filterMap] at hl
    obtain ⟨tr, htr, hg⟩ := hl
    simp only [List.mem_flatMap, List.mem_map, List.mem_range] at htr
    obtain ⟨tIdx, ht, rIdx, hr, rfl⟩ := htr
    simp only [Option.ite_none_right_eq_some, Option.some_inj] at hg
    obtain ⟨hvotes, rfl⟩ := hg
    rw [sampleLinePoint_eq_some_iff] at hsome
    exact ⟨tIdx, rIdx, ht, hr, hvotes, hsome⟩
  · rintro ⟨tIdx, rIdx, ht, hr, hvotes, hrest⟩
    refine ⟨((tIdx : ℝ) * Real.pi / 180, (rIdx : ℝ) - maxRho img.width img.height / 2,
      houghAcc img frame o.edgeThreshold tIdx rIdx), ?_, ?_⟩
    · rw [List.mem_filterMap]
      refine ⟨(tIdx, rIdx), ?_, ?_⟩
      · simp only [List.mem_flatMap, List.mem_map, List.mem_range]
        exact ⟨tIdx, ht, rIdx, hr, rfl⟩
      · simp only [Option.ite_none_right_eq_some, Option.some_inj]
        exact ⟨hvotes, trivial⟩
    · rw [sampleLinePoint_eq_some_iff]
      exact hrest

/-! ### C8: the similarity operation's None cases -/

/-- `_templateVar` returns a value only when its window is in bounds. -/
theorem templateVar_isSome_bounds (img : Image) (cx cy : ℤ) (sdThresh : ℚ)
    (h : templateVar img cx cy sdThresh ≠ none) : windowInBounds img cx cy := by
  unfold templateVar at h
  by_cases h1 : cx - TEMPLATE_SIZE < 0 ∨ cx + TEMPLATE_SIZE ≥ (img.width : ℤ)
  · rw [if_pos h1] at h; exact absurd rfl h
  · rw [if_neg h1] at h
    by_cases h2 : cy - TEMPLATE_SIZE < 0 ∨ cy + TEMPLATE_SIZE ≥ (img.height : ℤ)
    · rw [if_pos h2] at h; exact absurd rfl h
    · unfold windowInBounds; omega

/-- C8 amended: the similarity operation returns `none` exactly when the
*candidate* window falls outside the image or the *candidate* window's
computed variance is zero (the reference window is never bounds-checked and
the caller-supplied reference deviation is never tested); in every other
case it returns `covariance / (refVlen · candidateVlen)`. -/
theorem getSimilarity_none_iff (img : Image) (cx cy tx ty : ℤ) (vlen : ℝ) :
    (getSimilarity img cx cy vlen tx ty = none ↔
      ¬ windowInBounds img cx cy ∨ windowVarRaw img cx cy = 0) ∧
    (windowInBounds img cx cy → windowVarRaw img cx cy ≠ 0 →
      getSimilarity img cx cy vlen tx ty =
        some ((simCovariance img cx cy tx ty : ℝ) /
          (vlen * Real.sqrt (windowVarRaw img cx cy : ℝ)))) := by
  unfold getSimilarity
  by_cases h1 : cx - TEMPLATE_SIZE < 0 ∨ cx + TEMPLATE_SIZE ≥ (img.width : ℤ)
  · rw [if_pos h1]
    have hnb : ¬ windowInBounds img cx cy := by unfold windowInBounds; omega
    exact ⟨⟨fun _ => Or.inl hnb, fun _ => rfl⟩, fun hb _ => absurd hb hnb⟩
  · rw [if_neg h1]
    by_cases h2 : cy - TEMPLATE_SIZE < 0 ∨ cy + TEMPLATE_SIZE ≥ (img.height : ℤ)
    · rw [if_pos h2]
      have hnb : ¬ windowInBounds img cx cy := by unfold windowInBounds; omega
      exact ⟨⟨fun _ => Or.inl hnb, fun _ => rfl⟩, fun hb _ => absurd hb hnb⟩
    · rw [if_neg h2]
      dsimp only
      have hb2 : windowInBounds img cx cy := by unfold windowInBounds; omega
      by_cases h3 : windowVarRaw img cx cy = 0
      · rw [if_pos h3]
        exact ⟨⟨fun _ => Or.inr h3, fun _ => rfl⟩, fun _ hne => absurd h3 hne⟩
      · rw [if_neg h3]
        refine ⟨⟨fun h => absurd h (by simp), fun h => ?_⟩, fun _ _ => rfl⟩
        rcases h with h | h
        · exact absurd hb2 h
        · exact absurd h h3

/-- The C8 counterexample image: 14×13, all zeros except a 1 at flat index
97 = 6·14 + 13 (pixel `(x,y) = (13,6)`).  The reference window centred at
`(6,6)` covers columns 0–12 and is entirely flat; the candidate window
centred at `(7,6)` covers columns 1–13 and contains the 1. -/
def cexData : List ℚ := (List.replicate 182 0).set 97 1

def cexImg : Image := ⟨cexData, 14, 13, 1⟩

set_option maxRecDepth 1000000 in
/-- C8 counterexample: both windows are in bounds, the reference window's
computed standard deviation is zero (`_templateVar` at `(6,6)` with
threshold 0 returns exactly 0), so the claim demands `None`; yet
`_getSimilarity` — which never checks the reference window — returns a value
(the source divides by `refVlen·vlen2 = 0` and yields NaN, not null). -/
theorem getSimilarity_ref_sd_zero_cex :
    windowInBounds cexImg 6 6 ∧ windowInBounds cexImg 7 6 ∧
      windowVarRaw cexImg 6 6 = 0 ∧ templateVar cexImg 6 6 0 = some 0 ∧
      getSimilarity cexImg 7 6 0 6 6 ≠ none := by
  have hs1 : cumsumQuery cexImg.data cexImg.width (6 - TEMPLATE_SIZE)
      (6 - TEMPLATE_SIZE) (6 + TEMPLATE_SIZE) (6 + TEMPLATE_SIZE) = 0 := by
    with_unfolding_all rfl
  have hs2 : cumsumQuery (imageDataSqr cexImg.data) cexImg.width (6 - TEMPLATE_SIZE)
      (6 - TEMPLATE_SIZE) (6 + TEMPLATE_SIZE) (6 + TEMPLATE_SIZE) = 0 := by
    with_unfolding_all rfl
  have hraw2 : windowVarRaw cexImg 7 6 = 168 / 169 := by with_unfolding_all rfl
  have hb1 : ¬ ((6 : ℤ) - TEMPLATE_SIZE < 0 ∨
      (6 : ℤ) + TEMPLATE_SIZE ≥ (cexImg.width : ℤ)) := by decide
  have hb2 : ¬ ((6 : ℤ) - TEMPLATE_SIZE < 0 ∨
      (6 : ℤ) + TEMPLATE_SIZE ≥ (cexImg.height : ℤ)) := by decide
  refine ⟨by decide, by decide, ?_, ?_, ?_⟩
  · unfold windowVarRaw
    rw [hs1, hs2]
    norm_num
  · unfold templateVar
    rw [if_neg hb1, if_neg hb2]
    dsimp only
    rw [hs1, hs2]
    norm_num
  · unfold getSimilarity
    have hc1 : ¬ ((7 : ℤ) - TEMPLATE_SIZE < 0 ∨
        (7 : ℤ) + TEMPLATE_SIZE ≥ (cexImg.width : ℤ)) := by decide
    have hc2 : ¬ ((6 : ℤ) - TEMPLATE_SIZE < 0 ∨
        (6 : ℤ) + TEMPLATE_SIZE ≥ (cexImg.height : ℤ)) := by decide
    rw [if_neg hc1, if_neg hc2]
    dsimp only
    rw [if_neg (by rw [hraw2]; norm_num)]
    simp

/-! ### C7: flat images -/

/-- An image of uniform intensity `c`. -/
def flatImage (w h : ℕ) (c : ℚ) : Image := ⟨List.replicate (w * h) c, w, h, 1⟩

/-- Reading a flat buffer at an in-range index yields the constant. -/
theorem readPix_flat (n : ℕ) (c : ℚ) (idx : ℤ) (h0 : 0 ≤ idx) (hn : idx < (n : ℤ)) :
    readPix (List.replicate n c) idx = c := by
  unfold readPix
  rw [dif_pos ⟨h0, by rw [List.length_replicate]; omega⟩]
  exact List.get_replicate c _

/-- A rectangle query over a flat buffer whose rectangle stays inside the
image is the cell count times the constant. -/
theorem cumsumQuery_flat (w h : ℕ) (c : ℚ) (x1 y1 x2 y2 : ℤ)
    (hx1 : 0 ≤ x1) (hx2 : x2 < (w : ℤ)) (hy1 : 0 ≤ y1) (hy2 : y2 < (h : ℤ)) :
    cumsumQuery (List.replicate (w * h) c) w x1 y1 x2 y2 =
      ((Finset.Icc y1 y2).card : ℚ) * (((Finset.Icc x1 x2).card : ℚ) * c) := by
  unfold cumsumQuery
  trans ∑ j ∈ Finset.Icc y1 y2, (((Finset.Icc x1 x2).card : ℚ) * c)
  · refine Finset.sum_congr rfl fun j hj => ?_
    rw [Finset.mem_Icc] at hj
    trans ∑ i ∈ Finset.Icc x1 x2, c
    · refine Finset.sum_congr rfl fun i hi => ?_
      rw [Finset.mem_Icc] at hi
      refine readPix_flat _ _ _ ?_ ?_
      · nlinarith [mul_nonneg (show (0 : ℤ) ≤ j by omega)
          (show (0 : ℤ) ≤ (w : ℤ) by positivity)]
      · push_cast
        nlinarith [mul_le_mul_of_nonneg_right (show j ≤ (h : ℤ) - 1 by omega)
          (show (0 : ℤ) ≤ (w : ℤ) by positivity)]
    · rw [Finset.sum_const, nsmul_eq_mul]
  · rw [Finset.sum_const, nsmul_eq_mul]

/-- Both prefix-sum queries over a template window of a flat image. -/
theorem window_query_flat (w h : ℕ) (c : ℚ) (cx cy : ℤ)
    (hx : 0 ≤ cx - TEMPLATE_SIZE ∧ cx + TEMPLATE_SIZE < (w : ℤ))
    (hy : 0 ≤ cy - TEMPLATE_SIZE ∧ cy + TEMPLATE_SIZE < (h : ℤ)) :
    cumsumQuery (List.replicate (w * h) c) w (cx - TEMPLATE_SIZE) (cy - TEMPLATE_SIZE)
      (cx + TEMPLATE_SIZE) (cy + TEMPLATE_SIZE) = 169 * c := by
  rw [cumsumQuery_flat w h c _ _ _ _ hx.1 hx.2 hy.1 hy.2]
  rw [Int.card_Icc, Int.card_Icc]
  have e1 : cx + TEMPLATE_SIZE + 1 - (cx - TEMPLATE_SIZE) = 13 := by
    simp only [TEMPLATE_SIZE]; ring
  have e2 : cy + TEMPLATE_SIZE + 1 - (cy - TEMPLATE_SIZE) = 13 := by
    simp only [TEMPLATE_SIZE]; ring
  rw [e1, e2, show ((13 : ℤ).toNat) = 13 from rfl]
  push_cast
  ring

/-- `_templateVar` on a flat image with the `TEMPLATE_SD_THRESH` threshold is
always `none`: either the window leaves the image or its variance is zero. -/
theorem templateVar_flat (w h : ℕ) (c : ℚ) (cx cy : ℤ) :
    templateVar (flatImage w h c) cx cy TEMPLATE_SD_THRESH = none := by
  unfold templateVar
  by_cases h1 : cx - TEMPLATE_SIZE < 0 ∨ cx + TEMPLATE_SIZE ≥ ((flatImage w h c).width : ℤ)
  · rw [if_pos h1]
  · rw [if_neg h1]
    by_cases h2 : cy - TEMPLATE_SIZE < 0 ∨
        cy + TEMPLATE_SIZE ≥ ((flatImage w h c).height : ℤ)
    · rw [if_pos h2]
    · rw [if_neg h2]
      dsimp only
      have hw : ((flatImage w h c).width : ℤ) = (w : ℤ) := rfl
      have hh : ((flatImage w h c).height : ℤ) = (h : ℤ) := rfl
      rw [hw] at h1
      rw [hh] at h2
      have hdata : (flatImage w h c).data = List.replicate (w * h) c := rfl
      have hsq : imageDataSqr (List.replicate (w * h) c) = List.replicate (w * h) (c * c) := by
        unfold imageDataSqr
        rw [List.map_replicate]
      have hq1 := window_query_flat w h c cx cy (by omega) (by omega)
      have hq2 := window_query_flat w h (c * c) cx cy (by omega) (by omega)
      rw [show (flatImage w h c).width = w from rfl, hdata, hsq, hq1, hq2]
      split
      · rfl
      · exfalso
        rename_i hcond
        apply hcond
        have hz : 169 * (c * c) -
            2 * (169 * c / (((2 * TEMPLATE_SIZE + 1 : ℤ) : ℚ) * ((2 * TEMPLATE_SIZE + 1 : ℤ) : ℚ))) *
              (169 * c) +
            (((2 * TEMPLATE_SIZE + 1 : ℤ) : ℚ) * ((2 * TEMPLATE_SIZE + 1 : ℤ) : ℚ)) *
              (169 * c / (((2 * TEMPLATE_SIZE + 1 : ℤ) : ℚ) * ((2 * TEMPLATE_SIZE + 1 : ℤ) : ℚ))) *
              (169 * c / (((2 * TEMPLATE_SIZE + 1 : ℤ) : ℚ) * ((2 * TEMPLATE_SIZE + 1 : ℤ) : ℚ))) = 0 := by
          simp only [TEMPLATE_SIZE]
          push_cast
          ring
        rw [hz]
        norm_num [TEMPLATE_SIZE, TEMPLATE_SD_THRESH]

/-- Every cell of the self-similarity map of a flat image is `1.0`. -/
theorem featureMap_flat (w h : ℕ) (c : ℚ) (frame : FrameBorder) (q : ℤ × ℤ) :
    featureMap (flatImage w h c) frame q = 1 := by
  unfold featureMap
  split
  · rfl
  · rw [templateVar_flat]

/-- When no cell of `image2` beats the initial minimum, the argmin scan
returns `cx = cy = -1`. -/
theorem scanMin_of_not_lt (image2 : ℤ × ℤ → ℝ) (w h : ℕ) (frame : FrameBorder)
    (init : ℝ) (hall : ∀ i j : ℕ, ¬ image2 ((i : ℤ), (j : ℤ)) < init) :
    scanMin image2 w h frame init = (init, -1, -1) := by
  unfold scanMin
  generalize pixelList h w = l
  induction l with
  | nil => rfl
  | cons p l ih =>
    rw [List.foldl_cons]
    convert ih using 2
    unfold scanMinStep
    dsimp only
    split
    · rfl
    · rw [if_neg (hall p.2 p.1)]

/-- When the argmin scan comes back empty, one step of the greedy loop
returns the accumulated coordinates. -/
theorem selectLoopGo_stop (img : Image) (frame : FrameBorder)
    (ts ss : ℕ) (mx mn sd : ℝ) (occ : ℕ) (mfn : Option ℕ) (fuel : ℕ) (st : SelState)
    (hscan : (scanMin st.image2 img.width img.height frame mx).2.1 = -1) :
    selectLoopGo img frame ts ss mx mn sd occ mfn (fuel + 1) st = st.coords := by
  simp only [selectLoopGo]
  split
  · rfl
  · rfl

/-- Corner detection on a flat image yields no features. -/
theorem extractCornerFeatures_flat (w h : ℕ) (c : ℚ) (frame : FrameBorder) :
    extractCornerFeatures (flatImage w h c) frame = [] := by
  unfold extractCornerFeatures selectFeature
  dsimp only
  rw [selectLoopGo_stop]
  · rfl
  · rw [scanMin_of_not_lt]
    intro i j
    show ¬ featureMap (flatImage w h c) frame ((i : ℤ), (j : ℤ)) < MAX_THRESH
    rw [featureMap_flat]
    norm_num [MAX_THRESH]

/-- On a flat image no pixel is a Sobel edge (both gradients vanish). -/
theorem sobelEdge_flat (w h : ℕ) (c : ℚ) (frame : FrameBorder) (eThr : ℚ)
    (hthr : 0 < eThr) (x y : ℕ) :
    sobelEdge (flatImage w h c) frame eThr x y = 0 := by
  unfold sobelEdge
  split
  · rfl
  · split
    · rfl
    · dsimp only
      simp only [flatImage]
      split
      · rename_i hint hframe hcond
        exfalso
        rw [not_not] at hint
        simp only [flatImage] at hint
        obtain ⟨hx1, hx2, hy1, hy2⟩ := hint
        have hw0 : (0 : ℤ) ≤ (w : ℤ) := by positivity
        have hyy : (1 : ℤ) ≤ (y : ℤ) := by exact_mod_cast hy1
        have hxx : (1 : ℤ) ≤ (x : ℤ) := by exact_mod_cast hx1
        have hx2' : (x : ℤ) + 1 < (w : ℤ) := by exact_mod_cast hx2
        have hy2' : (y : ℤ) + 1 < (h : ℤ) := by exact_mod_cast hy2
        have hyw1 : (w : ℤ) ≤ (y : ℤ) * w := by nlinarith
        have hyw2 : (y : ℤ) * w + 2 * w ≤ (w : ℤ) * h := by nlinarith
        have hcast : ∀ idx : ℤ, 0 ≤ idx → idx < (w : ℤ) * h →
            readPix (List.replicate (w * h) c) idx = c := by
          intro idx hi1 hi2
          refine readPix_flat _ _ _ hi1 ?_
          push_cast
          linarith
        have e1 := hcast ((y : ℤ) * w + x - w - 1) (by omega) (by omega)
        have e2 := hcast ((y : ℤ) * w + x - 1) (by omega) (by omega)
        have e3 := hcast ((y : ℤ) * w + x + w - 1) (by omega) (by omega)
        have e4 := hcast ((y : ℤ) * w + x - w + 1) (by omega) (by omega)
        have e5 := hcast ((y : ℤ) * w + x + 1) (by omega) (by omega)
        have e6 := hcast ((y : ℤ) * w + x + w + 1) (by omega) (by omega)
        have e7 := hcast ((y : ℤ) * w + x - w) (by omega) (by omega)
        have e8 := hcast ((y : ℤ) * w + x + w) (by omega) (by omega)
        rw [e1, e2, e3, e4, e5, e6, e7, e8] at hcond
        rw [show (-c - 2 * c - c + c + 2 * c + c) * (-c - 2 * c - c + c + 2 * c + c) +
            (-c - 2 * c - c + c + 2 * c + c) * (-c - 2 * c - c + c + 2 * c + c) =
            (0 : ℚ) from by ring] at hcond
        simp only [Rat.cast_zero, Real.sqrt_zero] at hcond
        have hpos : (0 : ℝ) < (eThr : ℝ) := by exact_mod_cast hthr
        linarith [hcond]
      · rfl

/-- On a flat image the Hough accumulator stays zero: no edge pixel ever
votes. -/
theorem houghAcc_flat (w h : ℕ) (c : ℚ) (frame : FrameBorder) (eThr : ℚ)
    (hthr : 0 < eThr) :
    houghAcc (flatImage w h c) frame eThr = fun _ _ => 0 := by
  unfold houghAcc
  generalize pixelList (flatImage w h c).height (flatImage w h c).width = l
  induction l with
  | nil => rfl
  | cons p l ih =>
    rw [List.foldl_cons]
    convert ih using 2
    dsimp only
    rw [sobelEdge_flat w h c frame eThr hthr p.2 p.1, if_pos rfl]

/-- On a flat image no accumulator cell can exceed a non-negative
`houghThreshold`, so no line is detected. -/
theorem detectedLines_flat (w h : ℕ) (c : ℚ) (frame : FrameBorder)
    (o : LinesOptions) (hthr : 0 < o.edgeThreshold) (hh : 0 ≤ o.houghThreshold) :
    detectedLines (flatImage w h c) frame o = [] := by
  unfold detectedLines
  rw [houghAcc_flat w h c frame o.edgeThreshold hthr]
  rw [List.filterMap_eq_nil_iff]
  intro tr _
  dsimp only
  split
  · rename_i hgt
    exfalso
    norm_num at hgt
    linarith
  · rfl

/-- C7: a flat image yields zero Corner features (its self-similarity map is
identically 1, so the greedy selection stops immediately) and, with any
`edgeThreshold > 0` and non-negative `houghThreshold`, zero Line features
(no Sobel magnitude exceeds the threshold, so no votes are cast). -/
theorem flat_image_no_features (w h : ℕ) (c : ℚ) (frame : FrameBorder)
    (o : LinesOptions) (hthr : 0 < o.edgeThreshold) (hh : 0 ≤ o.houghThreshold) :
    extractCornerFeatures (flatImage w h c) frame = [] ∧
      extractLineFeatures (flatImage w h c) frame o = [] := by
  refine ⟨extractCornerFeatures_flat w h c frame, ?_⟩
  unfold extractLineFeatures
  rw [detectedLines_flat w h c frame o hthr hh]
  rfl

/-- C7 witness: a concrete 20×20 flat image with the default line options. -/
theorem flat_image_no_features_witness :
    (0 : ℚ) < DEFAULT_LINES_OPTIONS.edgeThreshold ∧
      (0 : ℚ) ≤ DEFAULT_LINES_OPTIONS.houghThreshold ∧
      extractCornerFeatures (flatImage 20 20 7) ⟨0, 0, 0, 0⟩ = [] ∧
      extractLineFeatures (flatImage 20 20 7) ⟨0, 0, 0, 0⟩ DEFAULT_LINES_OPTIONS = [] := by
  have h := flat_image_no_features 20 20 7 ⟨0, 0, 0, 0⟩ DEFAULT_LINES_OPTIONS
    (by norm_num [DEFAULT_LINES_OPTIONS]) (by norm_num [DEFAULT_LINES_OPTIONS])
  exact ⟨by norm_num [DEFAULT_LINES_OPTIONS], by norm_num [DEFAULT_LINES_OPTIONS],
    h.1, h.2⟩

/-! ### C3, C9: the greedy selection's occupancy and bounds invariants -/

/-- Chebyshev separation beyond `occ`. -/
def chebSep (occ : ℕ) (a b : ℤ × ℤ) : Prop :=
  (occ : ℤ) < max |a.1 - b.1| |a.2 - b.2|

theorem chebSep_symm (occ : ℕ) : Symmetric (chebSep occ) := by
  intro a b hab
  unfold chebSep at *
  rw [abs_sub_comm b.1 a.1, abs_sub_comm b.2 a.2]
  exact hab

/-- Every pair of a row-major pixel list is in range. -/
theorem pixelList_mem (h w : ℕ) (p : ℕ × ℕ) (hp : p ∈ pixelList h w) :
    p.1 < h ∧ p.2 < w := by
  unfold pixelList at hp
  simp only [List.mem_flatMap, List.mem_map, List.mem_range] at hp
  obtain ⟨y, hy, x, hx, rfl⟩ := hp
  exact ⟨hy, hx⟩

/-- One scan step preserves the argmin invariant. -/
theorem scanMinStep_inv (image2 : ℤ × ℤ → ℝ) (w h : ℕ) (frame : FrameBorder)
    (init : ℝ) (st : ℝ × ℤ × ℤ) (p : ℕ × ℕ) (hp : p.1 < h ∧ p.2 < w)
    (h1 : st.1 ≤ init)
    (h2 : st.2.1 = -1 ∨ ∃ i j : ℕ, i < w ∧ j < h ∧ st.2 = ((i : ℤ), (j : ℤ)) ∧
      image2 ((i : ℤ), (j : ℤ)) = st.1 ∧ st.1 < init) :
    (scanMinStep image2 w h frame st p).1 ≤ init ∧
      ((scanMinStep image2 w h frame st p).2.1 = -1 ∨
        ∃ i j : ℕ, i < w ∧ j < h ∧
          (scanMinStep image2 w h frame st p).2 = ((i : ℤ), (j : ℤ)) ∧
          image2 ((i : ℤ), (j : ℤ)) = (scanMinStep image2 w h frame st p).1 ∧
          (scanMinStep image2 w h frame st p).1 < init) := by
  unfold scanMinStep
  dsimp only
  split
  · exact ⟨h1, h2⟩
  · split
    · rename_i hlt
      exact ⟨le_of_lt (lt_of_lt_of_le hlt h1),
        Or.inr ⟨p.2, p.1, hp.2, hp.1, rfl, rfl, lt_of_lt_of_le hlt h1⟩⟩
    · exact ⟨h1, h2⟩

/-- The argmin scan either fails (`cx = -1`) or returns an in-range cell
whose `image2` value is strictly below the initial minimum. -/
theorem scanMin_spec (image2 : ℤ × ℤ → ℝ) (w h : ℕ) (frame : FrameBorder)
    (init : ℝ) :
    (scanMin image2 w h frame init).2.1 = -1 ∨
      ∃ i j : ℕ, i < w ∧ j < h ∧
        (scanMin image2 w h frame init).2 = ((i : ℤ), (j : ℤ)) ∧
        image2 ((i : ℤ), (j : ℤ)) < init := by
  unfold scanMin
  have key : ∀ (l : List (ℕ × ℕ)), (∀ p ∈ l, p.1 < h ∧ p.2 < w) →
      ∀ st : ℝ × ℤ × ℤ, st.1 ≤ init →
        (st.2.1 = -1 ∨ ∃ i j : ℕ, i < w ∧ j < h ∧ st.2 = ((i : ℤ), (j : ℤ)) ∧
          image2 ((i : ℤ), (j : ℤ)) = st.1 ∧ st.1 < init) →
        (l.foldl (scanMinStep image2 w h frame) st).1 ≤ init ∧
          ((l.foldl (scanMinStep image2 w h frame) st).2.1 = -1 ∨
            ∃ i j : ℕ, i < w ∧ j < h ∧
              (l.foldl (scanMinStep image2 w h frame) st).2 = ((i : ℤ), (j : ℤ)) ∧
              image2 ((i : ℤ), (j : ℤ)) =
                (l.foldl (scanMinStep image2 w h frame) st).1 ∧
              (l.foldl (scanMinStep image2 w h frame) st).1 < init) := by
    intro l
    induction l with
    | nil => intro _ st h1 h2; exact ⟨h1, h2⟩
    | cons p l ih =>
      intro hbl st h1 h2
      rw [List.foldl_cons]
      have hstep := scanMinStep_inv image2 w h frame init st p
        (hbl p (List.mem_cons_self p l)) h1 h2
      exact ih (fun q hq => hbl q (List.mem_cons_of_mem p hq)) _ hstep.1 hstep.2
  have hres := key (pixelList h w) (fun p hp => pixelList_mem h w p hp)
    (init, -1, -1) le_rfl (Or.inl rfl)
  rcases hres.2 with hm | ⟨i, j, hiw, hjh, heq, hval, hlt⟩
  · exact Or.inl hm
  · exact Or.inr ⟨i, j, hiw, hjh, heq, by rw [hval]; exact hlt⟩

/-- The greedy loop's invariant: the accepted coordinates are pairwise
Chebyshev-separated beyond the occupancy radius, each accepted point's
template window is inside the image, and every in-bounds cell within the
occupancy square of an accepted point is exhausted (`image2 = 1`). -/
def SelInv (img : Image) (occ : ℕ) (st : SelState) : Prop :=
  st.coords.Pairwise (chebSep occ) ∧
  ∀ a ∈ st.coords,
    windowInBounds img a.1 a.2 ∧
    ∀ q : ℤ × ℤ, 0 ≤ q.1 → q.1 < (img.width : ℤ) → 0 ≤ q.2 →
      q.2 < (img.height : ℤ) →
      |q.1 - a.1| ≤ (occ : ℤ) → |q.2 - a.2| ≤ (occ : ℤ) → st.image2 q = 1

/-- Marking one cell exhausted preserves the invariant. -/
theorem selInv_setOne (img : Image) (occ : ℕ) (st : SelState) (cx cy : ℤ) (n : ℕ)
    (hinv : SelInv img occ st) :
    SelInv img occ ⟨setOne st.image2 cx cy, st.coords, n⟩ := by
  refine ⟨hinv.1, fun a ha => ⟨(hinv.2 a ha).1, ?_⟩⟩
  intro q h1 h2 h3 h4 h5 h6
  show setOne st.image2 cx cy q = 1
  unfold setOne
  split
  · rfl
  · exact (hinv.2 a ha).2 q h1 h2 h3 h4 h5 h6

/-- Accepting an in-range point whose `image2` value beats `mx ≤ 1` and
wiping its occupancy square preserves the invariant. -/
theorem selInv_accept (img : Image) (occ : ℕ) (st : SelState) (mx : ℝ)
    (hmx : mx ≤ 1) (i j : ℕ) (hiw : i < img.width) (hjh : j < img.height)
    (hval : st.image2 ((i : ℤ), (j : ℤ)) < mx)
    (hwb : windowInBounds img i j) (n : ℕ) (hinv : SelInv img occ st) :
    SelInv img occ
      ⟨wipe st.image2 img.width img.height i j occ,
        st.coords ++ [((i : ℤ), (j : ℤ))], n⟩ := by
  constructor
  · show (st.coords ++ [((i : ℤ), (j : ℤ))]).Pairwise (chebSep occ)
    rw [List.pairwise_append]
    refine ⟨hinv.1, List.pairwise_singleton _ _, ?_⟩
    intro a ha b hb
    rw [List.mem_singleton] at hb
    subst hb
    by_contra hnot
    unfold chebSep at hnot
    push_neg at hnot
    have hm1 : |(i : ℤ) - a.1| ≤ (occ : ℤ) := by
      rw [abs_sub_comm]
      exact le_trans (le_max_left _ _) hnot
    have hm2 : |(j : ℤ) - a.2| ≤ (occ : ℤ) := by
      rw [abs_sub_comm]
      exact le_trans (le_max_right _ _) hnot
    have hone := (hinv.2 a ha).2 ((i : ℤ), (j : ℤ)) (by positivity)
      (by show (i : ℤ) < (img.width : ℤ); exact_mod_cast hiw) (by positivity)
      (by show (j : ℤ) < (img.height : ℤ); exact_mod_cast hjh) hm1 hm2
    rw [hone] at hval
    linarith
  · intro a ha
    rw [List.mem_append, List.mem_singleton] at ha
    rcases ha with ha | rfl
    · refine ⟨(hinv.2 a ha).1, ?_⟩
      intro q h1 h2 h3 h4 h5 h6
      show wipe st.image2 img.width img.height i j occ q = 1
      unfold wipe
      split
      · rfl
      · exact (hinv.2 a ha).2 q h1 h2 h3 h4 h5 h6
    · refine ⟨hwb, ?_⟩
      intro q h1 h2 h3 h4 h5 h6
      show wipe st.image2 img.width img.height i j occ q = 1
      unfold wipe
      rw [if_pos ⟨h5, h6, h1, h2, h3, h4⟩]

/-- The greedy loop only returns coordinate lists that are pairwise
Chebyshev-separated beyond the occupancy radius and whose template windows
are inside the image. -/
theorem selectLoopGo_inv (img : Image) (frame : FrameBorder) (ts ss : ℕ)
    (mx mn sd : ℝ) (occ : ℕ) (mfn : Option ℕ) (hmx : mx ≤ 1) :
    ∀ (fuel : ℕ) (st : SelState), SelInv img occ st →
      (selectLoopGo img frame ts ss mx mn sd occ mfn fuel st).Pairwise (chebSep occ) ∧
      ∀ a ∈ selectLoopGo img frame ts ss mx mn sd occ mfn fuel st,
        windowInBounds img a.1 a.2 := by
  intro fuel
  induction fuel with
  | zero =>
    intro st hinv
    exact ⟨hinv.1, fun a ha => (hinv.2 a ha).1⟩
  | succ fuel ih =>
    intro st hinv
    simp only [selectLoopGo]
    split
    · exact ⟨hinv.1, fun a ha => (hinv.2 a ha).1⟩
    · split
      · exact ⟨hinv.1, fun a ha => (hinv.2 a ha).1⟩
      · rename_i hgo hne
        rcases scanMin_spec st.image2 img.width img.height frame mx with h1 |
          ⟨i, j, hiw, hjh, hsc, hlt⟩
        · exact absurd h1 hne
        have hcx : (scanMin st.image2 img.width img.height frame mx).2.1 = (i : ℤ) := by
          rw [hsc]
        have hcy : (scanMin st.image2 img.width img.height frame mx).2.2 = (j : ℤ) := by
          rw [hsc]
        rw [hcx, hcy]
        split
        · exact ih _ (selInv_setOne img occ st _ _ _ hinv)
        · rename_i vlen htv
          split
          · exact ih _ (selInv_setOne img occ st _ _ _ hinv)
          · split
            · exact ih _ (selInv_setOne img occ st _ _ _ hinv)
            · refine ih _ (selInv_accept img occ st mx hmx i j hiw hjh hlt ?_ _ hinv)
              exact templateVar_isSome_bounds img _ _ 0 (by rw [htv]; simp)

/-- The corner run's selected coordinates are pairwise separated beyond the
recomputed occupancy radius `floor(min(width, height)/10)` and keep their
template windows inside the image. -/
theorem selectFeature_inv (img : Image) (frame : FrameBorder) :
    (selectFeature img (featureMap img frame) TEMPLATE_SIZE.toNat SEARCH_SIZE2
      OCCUPANCY_SIZE MAX_THRESH MIN_THRESH SD_THRESH frame).Pairwise
        (chebSep (min img.width img.height / 10)) ∧
    ∀ a ∈ selectFeature img (featureMap img frame) TEMPLATE_SIZE.toNat SEARCH_SIZE2
        OCCUPANCY_SIZE MAX_THRESH MIN_THRESH SD_THRESH frame,
      windowInBounds img a.1 a.2 := by
  unfold selectFeature
  dsimp only
  apply selectLoopGo_inv
  · norm_num [MAX_THRESH]
  · constructor
    · exact List.Pairwise.nil
    · intro a ha
      exact absurd ha (List.not_mem_nil a)

/-- Every corner feature is the image of a selected coordinate. -/
theorem extractCornerFeatures_mem (img : Image) (frame : FrameBorder) (f : Feature)
    (hf : f ∈ extractCornerFeatures img frame) :
    ∃ a ∈ selectFeature img (featureMap img frame) TEMPLATE_SIZE.toNat SEARCH_SIZE2
      OCCUPANCY_SIZE MAX_THRESH MIN_THRESH SD_THRESH frame,
      f = .corner a.1 a.2 := by
  unfold extractCornerFeatures at hf
  rw [List.mem_map] at hf
  obtain ⟨a, ha, rfl⟩ := hf
  exact ⟨a, ha, rfl⟩

/-- Color features are never Corner features. -/
theorem extractColorFeatures_notCorner (img : Image) (frame : FrameBorder)
    (o : ColorOptions) (f : Feature) (hf : f ∈ extractColorFeatures img frame o) :
    ¬ f.isCorner := by
  unfold extractColorFeatures at hf
  rw [List.mem_filterMap] at hf
  obtain ⟨i, _, hsome⟩ := hf
  dsimp only at hsome
  split at hsome
  · exact absurd hsome (by simp)
  · obtain rfl := Option.some_injective _ hsome
    simp [Feature.isCorner]

/-- Sampled line points are never Corner features. -/
theorem sampleLinePoint_notCorner (img : Image) (l : ℝ × ℝ × ℕ) (f : Feature)
    (h : sampleLinePoint img l = some f) : ¬ f.isCorner := by
  unfold sampleLinePoint at h
  dsimp only at h
  split at h <;> split at h
  all_goals
    first
      | (obtain rfl := Option.some_injective _ h; simp [Feature.isCorner])
      | exact absurd h (by simp)

/-- A Corner feature of the `extract` output comes from the (unique) corner
run on the same image and frame. -/
theorem extract_mem_corner (img : Image) (frame : FrameBorder)
    (dopts : DetectionOptionsArg) (f : Feature) (hf : f ∈ extract img frame dopts)
    (hc : f.isCorner) :
    ∃ a ∈ selectFeature img (featureMap img frame) TEMPLATE_SIZE.toNat SEARCH_SIZE2
      OCCUPANCY_SIZE MAX_THRESH MIN_THRESH SD_THRESH frame,
      f = .corner a.1 a.2 := by
  unfold extract at hf
  dsimp only at hf
  rw [List.mem_flatMap] at hf
  obtain ⟨mode, _, hfm⟩ := hf
  split_ifs at hfm with h1 h2 h3
  · exact extractCornerFeatures_mem img frame f hfm
  · exact absurd hc (extractColorFeatures_notCorner _ _ _ _ hfm)
  · unfold extractLineFeatures at hfm
    rw [List.mem_filterMap] at hfm
    obtain ⟨l, _, hsome⟩ := hfm
    exact absurd hc (sampleLinePoint_notCorner _ _ _ hsome)
  · exact absurd hfm (List.not_mem_nil f)

/-- C3: any two distinct Corner features of one `extract` call are separated
by a Chebyshev distance strictly greater than the occupancy radius
`floor(min(width, height)/10)`. -/
theorem extract_corner_occupancy (img : Image) (frame : FrameBorder)
    (dopts : DetectionOptionsArg) :
    (extract img frame dopts).Pairwise (fun f g =>
      f.isCorner → g.isCorner → f ≠ g →
      ((min img.width img.height / 10 : ℕ) : ℤ) < max |f.x - g.x| |f.y - g.y|) := by
  apply List.pairwise_of_forall_mem_list
  intro f hf g hg hfc hgc hne
  obtain ⟨a, ha, rfl⟩ := extract_mem_corner img frame dopts f hf hfc
  obtain ⟨b, hb, rfl⟩ := extract_mem_corner img frame dopts g hg hgc
  have hab : a ≠ b := by
    intro h
    exact hne (by rw [h])
  have hsep := (selectFeature_inv img frame).1.forall (chebSep_symm _) ha hb hab
  unfold chebSep at hsep
  simpa [Feature.x, Feature.y] using hsep

/-! ### C9: every extracted feature lies inside the image -/

/-- Setting index `k` to its old entry extended by one element preserves a
per-element predicate over all `getD` reads of a list of lists. -/
theorem getD_set_append_inv {α : Type} (P : α → Prop) (cls : List (List α))
    (hcls : ∀ i : ℕ, ∀ p ∈ cls.getD i [], P p) (k : ℕ) (v : α) (hv : P v) :
    ∀ i : ℕ, ∀ p ∈ (cls.set k (cls.getD k [] ++ [v])).getD i [], P p := by
  intro i p hp
  rw [List.getD_eq_getElem?_getD] at hp
  by_cases hk : k < cls.length
  · rcases eq_or_ne k i with rfl | hne
    · rw [List.getElem?_set_eq hk] at hp
      simp only [Option.getD_some] at hp
      rw [List.mem_append, List.mem_singleton] at hp
      rcases hp with hp | rfl
      · exact hcls k p hp
      · exact hv
    · rw [List.getElem?_set_ne hne] at hp
      exact hcls i p (by rw [List.getD_eq_getElem?_getD]; exact hp)
  · rw [List.set_eq_of_length_le (le_of_not_lt hk)] at hp
    exact hcls i p (by rw [List.getD_eq_getElem?_getD]; exact hp)

/-- One assignment step of the colour clustering only stores the scanned
pixel, which lies inside the image. -/
theorem colorAssignStep_bounds (img : Image) (frame : FrameBorder) (o : ColorOptions)
    (cls : List (List (ℕ × ℕ))) (yx : ℕ × ℕ)
    (hyx : yx.1 < img.height ∧ yx.2 < img.width)
    (hcls : ∀ i : ℕ, ∀ p ∈ cls.getD i [], p.1 < img.width ∧ p.2 < img.height) :
    ∀ i : ℕ, ∀ p ∈ (colorAssignStep img frame o cls yx).getD i [],
      p.1 < img.width ∧ p.2 < img.height := by
  unfold colorAssignStep
  dsimp only
  split
  · exact hcls
  · split
    · exact hcls
    · split
      · exact getD_set_append_inv _ cls hcls _ _ ⟨hyx.2, hyx.1⟩
      · exact hcls

/-- Every pixel stored by the clustering pass lies inside the image. -/
theorem colorClusters_bounds (img : Image) (frame : FrameBorder) (o : ColorOptions) :
    ∀ i : ℕ, ∀ p ∈ (colorClusters img frame o).getD i [],
      p.1 < img.width ∧ p.2 < img.height := by
  unfold colorClusters
  have key : ∀ l : List (ℕ × ℕ), (∀ q ∈ l, q.1 < img.height ∧ q.2 < img.width) →
      ∀ cls : List (List (ℕ × ℕ)),
        (∀ i : ℕ, ∀ p ∈ cls.getD i [], p.1 < img.width ∧ p.2 < img.height) →
        ∀ i : ℕ, ∀ p ∈ (l.foldl (colorAssignStep img frame o) cls).getD i [],
          p.1 < img.width ∧ p.2 < img.height := by
    intro l
    induction l with
    | nil => intro _ cls h; simpa using h
    | cons q l ih =>
      intro hb cls h
      rw [List.foldl_cons]
      exact ih (fun r hr => hb r (List.mem_cons_of_mem _ hr)) _
        (colorAssignStep_bounds img frame o cls q (hb q (List.mem_cons_self _ _)) h)
  apply key _ (fun q hq => pixelList_mem _ _ q hq)
  intro i p hp
  rcases Nat.lt_or_ge i o.numClusters with h | h
  · simp [List.getD, h] at hp
  · simp [List.getD, List.getElem?_eq_none, h] at hp

/-- Rounding the average of a non-empty list of rationals bounded in
`[0, B]` stays within `[0, round B]`. -/
theorem round_div_len_bounds (l : List ℚ) (B : ℚ) (hne : l ≠ [])
    (h0 : ∀ x ∈ l, 0 ≤ x) (hB : ∀ x ∈ l, x ≤ B) :
    0 ≤ round (l.sum / (l.length : ℚ)) ∧ round (l.sum / (l.length : ℚ)) ≤ round B := by
  have hlen : 0 < (l.length : ℚ) := by
    have := List.length_pos.2 hne
    exact_mod_cast this
  have hsum0 : 0 ≤ l.sum := List.sum_nonneg h0
  have hsumB : l.sum ≤ l.length • B := List.sum_le_card_nsmul l B hB
  rw [nsmul_eq_mul] at hsumB
  have hq0 : 0 ≤ l.sum / (l.length : ℚ) := div_nonneg hsum0 (le_of_lt hlen)
  have hqB : l.sum / (l.length : ℚ) ≤ B := by
    rw [div_le_iff hlen]
    nlinarith
  have rmono : ∀ a b : ℚ, a ≤ b → round a ≤ round b := by
    intro a b hab
    rw [round_eq, round_eq]
    exact Int.floor_le_floor (by linarith)
  constructor
  · have := rmono 0 _ hq0
    rwa [round_zero] at this
  · exact rmono _ _ hqB

/-- Every colour feature's rounded centroid lies inside the image (once
`minRegionSize ≥ 1` forces the emitting cluster to be non-empty). -/
theorem extractColorFeatures_bounds (img : Image) (frame : FrameBorder)
    (o : ColorOptions) (hmin : 1 ≤ o.minRegionSize) (f : Feature)
    (hf : f ∈ extractColorFeatures img frame o) :
    featureInBounds img.width img.height f := by
  unfold extractColorFeatures at hf
  rw [List.mem_filterMap] at hf
  obtain ⟨i, _, hsome⟩ := hf
  dsimp only at hsome
  split at hsome
  · exact absurd hsome (by simp)
  · rename_i hlen
    obtain rfl := Option.some_injective _ hsome
    have hb := colorClusters_bounds img frame o i
    have hne : (colorClusters img frame o).getD i [] ≠ [] := by
      intro h0
      rw [h0] at hlen
      simp only [List.length_nil, Nat.not_lt, Nat.le_zero] at hlen
      omega
    obtain ⟨p0, hp0⟩ := List.exists_mem_of_ne_nil _ hne
    have hw1 : 1 ≤ img.width := by have := (hb p0 hp0).1; omega
    have hh1 : 1 ≤ img.height := by have := (hb p0 hp0).2; omega
    have hx := round_div_len_bounds
      (((colorClusters img frame o).getD i []).map fun p => ((p.1 : ℚ)))
      ((img.width : ℚ) - 1) (by simp only [ne_eq, List.map_eq_nil_iff]; exact hne)
      (by
        intro x hx
        rw [List.mem_map] at hx
        obtain ⟨p, hp, rfl⟩ := hx
        positivity)
      (by
        intro x hx
        rw [List.mem_map] at hx
        obtain ⟨p, hp, rfl⟩ := hx
        have h1 : p.1 + 1 ≤ img.width := (hb p hp).1
        have h2 : (p.1 : ℚ) + 1 ≤ (img.width : ℚ) := by exact_mod_cast h1
        linarith)
    have hy := round_div_len_bounds
      (((colorClusters img frame o).getD i []).map fun p => ((p.2 : ℚ)))
      ((img.height : ℚ) - 1) (by simp only [ne_eq, List.map_eq_nil_iff]; exact hne)
      (by
        intro x hx
        rw [List.mem_map] at hx
        obtain ⟨p, hp, rfl⟩ := hx
        positivity)
      (by
        intro x hx
        rw [List.mem_map] at hx
        obtain ⟨p, hp, rfl⟩ := hx
        have h1 : p.2 + 1 ≤ img.height := (hb p hp).2
        have h2 : (p.2 : ℚ) + 1 ≤ (img.height : ℚ) := by exact_mod_cast h1
        linarith)
    rw [List.length_map] at hx hy
    have hrw : round ((img.width : ℚ) - 1) = (img.width : ℤ) - 1 := by
      have h : ((img.width : ℚ) - 1) = (((img.width : ℤ) - 1 : ℤ) : ℚ) := by
        push_cast
        ring
      rw [h, round_intCast]
    have hrh : round ((img.height : ℚ) - 1) = (img.height : ℤ) - 1 := by
      have h : ((img.height : ℚ) - 1) = (((img.height : ℤ) - 1 : ℤ) : ℚ) := by
        push_cast
        ring
      rw [h, round_intCast]
    simp only [featureInBounds]
    refine ⟨hx.1, ?_, hy.1, ?_⟩
    · have h2 := hx.2
      rw [hrw] at h2
      omega
    · have h2 := hy.2
      rw [hrh] at h2
      omega

/-- Every sampled line feature lies inside the image (the sampling step
filters on exactly these bounds). -/
theorem extractLineFeatures_bounds (img : Image) (frame : FrameBorder)
    (o : LinesOptions) (f : Feature) (hf : f ∈ extractLineFeatures img frame o) :
    featureInBounds img.width img.height f := by
  unfold extractLineFeatures at hf
  rw [List.mem_filterMap] at hf
  obtain ⟨⟨theta, rho, v⟩, _, hsome⟩ := hf
  rw [sampleLinePoint_eq_some_iff] at hsome
  obtain ⟨x0, y0, _, hbnd, rfl⟩ := hsome
  exact hbnd

/-- Every corner feature keeps its template window inside the image, hence
satisfies both the plain bounds and the margin bounds. -/
theorem extractCornerFeatures_bounds (img : Image) (frame : FrameBorder)
    (f : Feature) (hf : f ∈ extractCornerFeatures img frame) :
    featureInBounds img.width img.height f := by
  obtain ⟨a, ha, rfl⟩ := extractCornerFeatures_mem img frame f hf
  have hwb := (selectFeature_inv img frame).2 a ha
  unfold windowInBounds at hwb
  simp only [TEMPLATE_SIZE] at hwb
  simp only [featureInBounds, TEMPLATE_SIZE]
  omega

/-- C9: for every valid image, every frame border and every options object
whose merged colour configuration has `minRegionSize ≥ 1`, every feature
returned by `extract` (of any mode) has coordinates inside the image,
`0 ≤ x < width` and `0 ≤ y < height`, and Corner features additionally
satisfy `TEMPLATE_SIZE ≤ x < width - TEMPLATE_SIZE` and likewise for `y`. -/
theorem extract_features_in_bounds (img : Image) (frame : FrameBorder)
    (dopts : DetectionOptionsArg) (hv : validImage img)
    (hmin : 1 ≤ (mergeColor dopts.colorOptions).minRegionSize) :
    List.Forall (featureInBounds img.width img.height) (extract img frame dopts) := by
  clear hv
  rw [List.forall_iff_forall_mem]
  intro f hf
  unfold extract at hf
  dsimp only at hf
  rw [List.mem_flatMap] at hf
  obtain ⟨mode, _, hfm⟩ := hf
  split_ifs at hfm with h1 h2 h3
  · exact extractCornerFeatures_bounds img frame f hfm
  · exact extractColorFeatures_bounds img frame _ hmin f hfm
  · exact extractLineFeatures_bounds img frame _ f hfm
  · exact absurd hfm (List.not_mem_nil f)

/-- C9 witness: the default options on a valid 1×1 image. -/
theorem extract_features_in_bounds_witness :
    validImage ⟨[100], 1, 1, 1⟩ ∧
      1 ≤ (mergeColor DEFAULT_DETECTION_OPTIONS.colorOptions).minRegionSize ∧
      List.Forall (featureInBounds 1 1)
        (extract ⟨[100], 1, 1, 1⟩ ⟨0, 0, 0, 0⟩ DEFAULT_DETECTION_OPTIONS) :=
  ⟨by decide, by decide,
    extract_features_in_bounds ⟨[100], 1, 1, 1⟩ ⟨0, 0, 0, 0⟩ DEFAULT_DETECTION_OPTIONS
      (by decide) (by decide)⟩

end MindAR
